import Mathlib

/-!
Shallow embedding of `src/cryptoapp.py` (CryptoAnalysis): the synthetic
candle builder in `get_crypto_candles`, the indicator calculator and wave
classification engine in `detect_elliot_waves` / `identify_wave_pattern`,
and the interpretation engine in `interpret_elliot_waves` /
`get_investment_recommendation`.  Prices and percentage changes are
modelled as rationals; pandas "no value" (NaN) cells are modelled with
`Option`, and the two places where IEEE semantics matters (the initial
NaN of `diff` being coerced to 0 by `where(cond, 0)`, and `x / 0 = +inf`
for `x > 0` inside the RSI formula) are embedded explicitly where they
occur.
-/

namespace CryptoApp

/-- The wave type strings `'impulse'` / `'corrective'` of
`identify_wave_pattern`. -/
inductive WaveType where
  | impulse
  | corrective
deriving DecidableEq, Repr

/-- The magnitude strings `'minor'` / `'significant'` / `'major'`. -/
inductive Magnitude where
  | minor
  | significant
  | major
deriving DecidableEq, Repr

/-- The `wave_details` dict built for each emitted wave
(lines 167-174 of `cryptoapp.py`).  `open` is not a field here; the
percentage change is stored already multiplied by 100 as in the code. -/
structure WaveSegment where
  type : WaveType
  magnitude : Magnitude
  start_index : Nat
  end_index : Nat
  percentage_change : ℚ
  label : String
deriving DecidableEq, Repr

/-- The `waves` dict of `identify_wave_pattern`: the full detail list,
the label list, and the impulse-only / corrective-only sub-lists, all in
scan order. -/
structure Waves where
  impulse_waves : List WaveSegment
  corrective_waves : List WaveSegment
  wave_details : List WaveSegment
  wave_labels : List String
deriving DecidableEq, Repr

/-- Threshold `thresholds['minor'] = 0.02`. -/
def thMinor : ℚ := 2 / 100

/-- Threshold `thresholds['significant'] = 0.05`. -/
def thSignificant : ℚ := 5 / 100

/-- Threshold `thresholds['major'] = 0.10`. -/
def thMajor : ℚ := 10 / 100

/-- The sequential magnitude assignment of lines 141-147: start at
`'minor'`, overwrite with `'significant'` if `abs(change) > 0.05`,
then overwrite with `'major'` if `abs(change) > 0.10`. -/
def waveMagnitude (change : ℚ) : Magnitude :=
  let m := Magnitude.minor
  let m := if |change| > thSignificant then Magnitude.significant else m
  let m := if |change| > thMajor then Magnitude.major else m
  m

/-- Line 157: `f'Impulse {wave_count}' if wave_count <= 5 else 'Impulse Ext'`. -/
def impulseLabel (wave_count : Nat) : String :=
  if wave_count ≤ 5 then "Impulse " ++ toString wave_count else "Impulse Ext"

/-- Line 165: `f'Correction {chr(64 + wave_count)}' if wave_count <= 3
else 'Correction Ext'`. -/
def correctiveLabel (wave_count : Nat) : String :=
  if wave_count ≤ 3 then "Correction " ++ (Char.ofNat (64 + wave_count)).toString
  else "Correction Ext"

/-- The mutable scan state of `identify_wave_pattern`:
`current_wave_type` (initially `None`) and `wave_count` (initially 0). -/
structure ScanState where
  current_wave_type : Option WaveType
  wave_count : Nat
deriving DecidableEq, Repr

/-- One iteration of the `for i in range(1, len(series))` loop body
(lines 136-182) at index `i` with `change = series[i]`: returns the
updated state and the emitted segment, if any. -/
def scanStep (st : ScanState) (change : ℚ) (i : Nat) :
    ScanState × Option WaveSegment :=
  if |change| > thMinor then
    let wave_type := if change > 0 then WaveType.impulse else WaveType.corrective
    let wave_magnitude := waveMagnitude change
    let st2 : ScanState :=
      match wave_type with
      | WaveType.impulse =>
          if st.current_wave_type ≠ some WaveType.impulse then
            ⟨some WaveType.impulse, 1⟩
          else
            ⟨st.current_wave_type, st.wave_count + 1⟩
      | WaveType.corrective =>
          if st.current_wave_type ≠ some WaveType.corrective then
            ⟨some WaveType.corrective, 1⟩
          else
            ⟨st.current_wave_type, st.wave_count + 1⟩
    let wave_label :=
      match wave_type with
      | WaveType.impulse => impulseLabel st2.wave_count
      | WaveType.corrective => correctiveLabel st2.wave_count
    (st2, some { type := wave_type, magnitude := wave_magnitude,
                 start_index := i - 1, end_index := i,
                 percentage_change := change * 100, label := wave_label })
  else
    (st, none)

/-- The empty `waves` dict initialised at lines 118-123. -/
def emptyWaves : Waves :=
  { impulse_waves := [], corrective_waves := [], wave_details := [],
    wave_labels := [] }

/-- The scan loop over the remaining part of the series, accumulating
the emitted segments into the `waves` dict exactly as lines 176-182 do:
each segment goes to `wave_details` and `wave_labels`, and to
`impulse_waves` if its type is impulse, else to `corrective_waves`. -/
def scanFrom (st : ScanState) (i : Nat) (rest : List ℚ) : Waves :=
  match rest with
  | [] => emptyWaves
  | c :: cs =>
      match scanStep st c i with
      | (st2, some seg) =>
          let w := scanFrom st2 (i + 1) cs
          { wave_details := seg :: w.wave_details
            wave_labels := seg.label :: w.wave_labels
            impulse_waves :=
              if seg.type = WaveType.impulse then seg :: w.impulse_waves
              else w.impulse_waves
            corrective_waves :=
              if seg.type = WaveType.impulse then w.corrective_waves
              else seg :: w.corrective_waves }
      | (st2, none) => scanFrom st2 (i + 1) cs

/-- `identify_wave_pattern(series)`: the loop runs `i` from 1 to
`len(series) - 1`, so `series[0]` is never examined; the state starts
as `current_wave_type = None`, `wave_count = 0`. -/
def identify_wave_pattern (series : List ℚ) : Waves :=
  scanFrom ⟨none, 0⟩ 1 series.tail

/-- The `price_trend` strings `'bullish'` / `'bearish'` of
`interpret_elliot_waves`. -/
inductive Trend where
  | bullish
  | bearish
deriving DecidableEq, Repr

/-- Line 252: `'bullish' if impulse_waves and impulse_waves[-1]['type']
== 'impulse' else 'bearish'` — a non-empty impulse list whose last
element has type impulse gives bullish, anything else bearish. -/
def price_trend (waves : Waves) : Trend :=
  match waves.impulse_waves.getLast? with
  | some w => if w.type = WaveType.impulse then Trend.bullish else Trend.bearish
  | none => Trend.bearish

/-- The recommendation strings returned by
`get_investment_recommendation` (the accompanying reason strings are
not modelled). -/
inductive Recommendation where
  | strongBuy
  | moderateBuy
  | holdCaution
  | neutral
deriving DecidableEq, Repr

/-- Lines 263-272: the first-match-wins recommendation chain over the
impulse / corrective wave lists and the precomputed trend. -/
def get_investment_recommendation (impulse_waves corrective_waves : List WaveSegment)
    (trend : Trend) : Recommendation :=
  if impulse_waves.length > corrective_waves.length ∧ trend = Trend.bullish then
    Recommendation.strongBuy
  else if impulse_waves.length > corrective_waves.length then
    Recommendation.moderateBuy
  else if corrective_waves.length > impulse_waves.length then
    Recommendation.holdCaution
  else
    Recommendation.neutral

/-- A synthetic candle row of `get_crypto_candles` (the timestamp is
not modelled; `open_` stands for the `open` column, a Lean keyword). -/
structure Candle where
  open_ : ℚ
  high : ℚ
  low : ℚ
  close : ℚ
deriving DecidableEq, Repr

/-- The error raised as `CryptoAnalysisError` for too few data points
(both the line-68 and the line-89 check use it). -/
inductive CryptoError where
  | insufficientData
deriving DecidableEq, Repr

/-- The trailing window of `rolling(window=4, min_periods=1)` at row
`i`: the closes at indices `max (i-3) 0 .. i`. -/
def rollingWindow (closes : List ℚ) (i : Nat) : List ℚ :=
  (List.range (min 4 (i + 1))).map (fun k => closes.getD (i - k) 0)

/-- `df['high']` at row `i`: max of the trailing window of 4 closes. -/
def rollingMax (closes : List ℚ) (i : Nat) : ℚ :=
  (rollingWindow closes i).foldl max (closes.getD i 0)

/-- `df['low']` at row `i`: min of the trailing window of 4 closes. -/
def rollingMin (closes : List ℚ) (i : Nat) : ℚ :=
  (rollingWindow closes i).foldl min (closes.getD i 0)

/-- The candle derived for input index `i ≥ 1`:
`open = close[i-1]` (the `shift(1)`), `high`/`low` from the rolling
window, `close = close[i]`. -/
def candleAt (closes : List ℚ) (i : Nat) : Candle :=
  { open_ := closes.getD (i - 1) 0
    high := rollingMax closes i
    low := rollingMin closes i
    close := closes.getD i 0 }

/-- The data-shaping core of `get_crypto_candles` (lines 67-92), on the
fetched close series: reject fewer than 2 points, derive open/high/low,
drop row 0 (its shifted `open` is NaN, so `dropna` removes exactly it),
and reject again if fewer than 2 rows remain. -/
def get_crypto_candles (closes : List ℚ) : Except CryptoError (List Candle) :=
  if closes.length < 2 then
    Except.error CryptoError.insufficientData
  else
    let candles := (List.range (closes.length - 1)).map (fun k => candleAt closes (k + 1))
    if candles.length < 2 then
      Except.error CryptoError.insufficientData
    else
      Except.ok candles

/-- `gain` at row `i` (line 109): `delta.where(delta > 0, 0)`.  At row
0 the `diff` value is NaN, the comparison `NaN > 0` is False, and
`where` replaces it by 0; from row 1 on it is `max (close[i] -
close[i-1]) 0`. -/
def gainAt (closes : List ℚ) (i : Nat) : ℚ :=
  if i = 0 then 0 else max (closes.getD i 0 - closes.getD (i - 1) 0) 0

/-- `loss` at row `i` (line 110): `-delta.where(delta < 0, 0)`, with
the row-0 NaN likewise coerced to 0. -/
def lossAt (closes : List ℚ) (i : Nat) : ℚ :=
  if i = 0 then 0 else max (closes.getD (i - 1) 0 - closes.getD i 0) 0

/-- The `rolling(window=14).mean()` of the gain column at row `i`
(only meaningful for `i ≥ 13`, where the window is full). -/
def avgGain (closes : List ℚ) (i : Nat) : ℚ :=
  ((List.range 14).map (fun k => gainAt closes (i - k))).sum / 14

/-- The `rolling(window=14).mean()` of the loss column at row `i`. -/
def avgLoss (closes : List ℚ) (i : Nat) : ℚ :=
  ((List.range 14).map (fun k => lossAt closes (i - k))).sum / 14

/-- `df['rsi']` at row `i` (lines 108-112), with the IEEE behaviour of
the float pipeline made explicit: the rolling means are NaN (no value)
while fewer than 14 observations exist, i.e. for `i < 13`; when
`avgLoss = 0` and `avgGain > 0`, `rs = avgGain / 0 = +inf` and
`100 - 100 / (1 + inf) = 100`; when both averages are 0, `rs = 0/0 =
NaN` and the RSI cell is NaN (no value). -/
def rsiAt (closes : List ℚ) (i : Nat) : Option ℚ :=
  if i < 13 then none
  else
    let g := avgGain closes i
    let l := avgLoss closes i
    if l = 0 then
      if g > 0 then some 100 else none
    else
      some (100 - 100 / (1 + g / l))

/-- Modelled from the spec's words, for comparison with the code's
`waveMagnitude`: the highest tier among Minor (0.02), Significant
(0.05), Major (0.10) whose threshold is strictly exceeded by the
absolute change. -/
def specHighestTier (c : ℚ) : Magnitude :=
  if thMajor < |c| then Magnitude.major
  else if thSignificant < |c| then Magnitude.significant
  else Magnitude.minor

/-- A concrete close series 1, 2, …, 15: every delta is +1, so every
rolling average loss is 0. -/
def demoAscending : List ℚ := [1, 2, 3, 4, 5, 6, 7, 8, 9, 10, 11, 12, 13, 14, 15]

/-- Helper: `scanStep` emits a segment exactly when the absolute change
strictly exceeds the minor threshold. -/
lemma scanStep_skip (st : ScanState) (c : ℚ) (i : Nat) (h : ¬ thMinor < |c|) :
    scanStep st c i = (st, none) := by
  simp [scanStep, h]

/-- Helper: every element the scan puts into `impulse_waves` has type
impulse (lines 179-180 only append impulse-typed segments there). -/
lemma scanFrom_impulse_types (rest : List ℚ) :
    ∀ st i w, w ∈ (scanFrom st i rest).impulse_waves → w.type = WaveType.impulse := by
  induction rest with
  | nil => intro st i w hw; simp [scanFrom, emptyWaves] at hw
  | cons c cs ih =>
      intro st i w hw
      rcases hstep : scanStep st c i with ⟨st2, out⟩
      cases out with
      | none =>
          rw [scanFrom, hstep] at hw
          exact ih st2 (i + 1) w hw
      | some seg =>
          rw [scanFrom, hstep] at hw
          by_cases hty : seg.type = WaveType.impulse
          · simp only [hty, if_pos rfl] at hw
            rcases List.mem_cons.mp hw with h | h
            · rw [h, hty]
            · exact ih st2 (i + 1) w h
          · simp only [if_neg hty] at hw
            exact ih st2 (i + 1) w hw

/-- Helper: a non-empty impulse list makes the trend bullish, an empty
one makes it bearish. -/
lemma price_trend_eq_bullish_iff (series : List ℚ) :
    price_trend (identify_wave_pattern series) = Trend.bullish ↔
      (identify_wave_pattern series).impulse_waves ≠ [] := by
  unfold price_trend
  rcases hlast : (identify_wave_pattern series).impulse_waves.getLast? with _ | w
  · rw [List.getLast?_eq_none_iff] at hlast
    simp [hlast]
  · have hmem : w ∈ (identify_wave_pattern series).impulse_waves := by
      rcases List.mem_getLast?_eq_getLast (l := (identify_wave_pattern series).impulse_waves)
        (x := w) (by rw [hlast]; rfl) with ⟨hne, hw⟩
      rw [hw]; exact List.getLast_mem hne
    have hty : w.type = WaveType.impulse :=
      scanFrom_impulse_types _ _ _ w hmem
    have hne : (identify_wave_pattern series).impulse_waves ≠ [] := by
      intro hnil; rw [hnil] at hmem; exact List.not_mem_nil w hmem
    simp [hty, hne]

/-- Helper: the shape of an emitted impulse segment (lines 150-157). -/
lemma scanStep_emit_impulse (st : ScanState) (c : ℚ) (i : Nat)
    (hm : thMinor < |c|) (hp : 0 < c) :
    scanStep st c i =
      (⟨some WaveType.impulse,
        if st.current_wave_type = some WaveType.impulse then st.wave_count + 1 else 1⟩,
       some { type := WaveType.impulse, magnitude := waveMagnitude c,
              start_index := i - 1, end_index := i, percentage_change := c * 100,
              label := impulseLabel
                (if st.current_wave_type = some WaveType.impulse then
                  st.wave_count + 1 else 1) }) := by
  by_cases hcur : st.current_wave_type = some WaveType.impulse
  · simp [scanStep, hm, hp, hcur]
  · simp [scanStep, hm, hp, hcur]

/-- Helper: the shape of an emitted corrective segment (lines 158-165). -/
lemma scanStep_emit_corrective (st : ScanState) (c : ℚ) (i : Nat)
    (hm : thMinor < |c|) (hp : ¬ 0 < c) :
    scanStep st c i =
      (⟨some WaveType.corrective,
        if st.current_wave_type = some WaveType.corrective then st.wave_count + 1 else 1⟩,
       some { type := WaveType.corrective, magnitude := waveMagnitude c,
              start_index := i - 1, end_index := i, percentage_change := c * 100,
              label := correctiveLabel
                (if st.current_wave_type = some WaveType.corrective then
                  st.wave_count + 1 else 1) }) := by
  by_cases hcur : st.current_wave_type = some WaveType.corrective
  · simp [scanStep, hm, hp, hcur]
  · simp [scanStep, hm, hp, hcur]

/-- Helper: an emitted segment carries magnitude `waveMagnitude c`. -/
lemma emitted_seg_magnitude (st : ScanState) (c : ℚ) (i : Nat)
    (st2 : ScanState) (seg : WaveSegment)
    (h : scanStep st c i = (st2, some seg)) :
    thMinor < |c| ∧ seg.magnitude = waveMagnitude c := by
  by_cases hm : thMinor < |c|
  · refine ⟨hm, ?_⟩
    by_cases hp : 0 < c
    · have h2 := (scanStep_emit_impulse st c i hm hp).symm.trans h
      simp only [Prod.mk.injEq, Option.some.injEq] at h2
      rw [← h2.2]
    · have h2 := (scanStep_emit_corrective st c i hm hp).symm.trans h
      simp only [Prod.mk.injEq, Option.some.injEq] at h2
      rw [← h2.2]
  · rw [scanStep_skip st c i hm] at h
    simp at h

/-- C1: every percentage change examined by the classification loop
that exceeds 0.02 in absolute value yields a segment whose magnitude is
the highest tier among Minor (0.02), Significant (0.05), Major (0.10)
whose threshold is strictly exceeded by the absolute change; an
absolute change exactly equal to 0.05 or 0.10 does not upgrade past the
lower tier. -/
theorem magnitude_is_highest_strictly_exceeded_tier
    (st : ScanState) (c : ℚ) (i : Nat) (st2 : ScanState) (seg : WaveSegment)
    (h : scanStep st c i = (st2, some seg)) :
    thMinor < |c| ∧ seg.magnitude = specHighestTier c ∧
    waveMagnitude (5 / 100) = Magnitude.minor ∧
    waveMagnitude (1 / 10) = Magnitude.significant := by
  obtain ⟨hm, hmag⟩ := emitted_seg_magnitude st c i st2 seg h
  refine ⟨hm, ?_, ?_, ?_⟩
  · rw [hmag]; rfl
  · simp only [waveMagnitude]
    rw [abs_of_nonneg (by norm_num : (0 : ℚ) ≤ 5 / 100)]
    norm_num [thSignificant, thMajor]
  · simp only [waveMagnitude]
    rw [abs_of_nonneg (by norm_num : (0 : ℚ) ≤ 1 / 10)]
    norm_num [thSignificant, thMajor]

/-- Closed instance of the C1 theorem at the change 0.06. -/
theorem magnitude_is_highest_strictly_exceeded_tier_witness :
    thMinor < |(6 : ℚ) / 100| ∧
    ({ type := WaveType.impulse, magnitude := Magnitude.significant,
       start_index := 0, end_index := 1, percentage_change := 6,
       label := "Impulse 1" } : WaveSegment).magnitude = specHighestTier (6 / 100) ∧
    waveMagnitude (5 / 100) = Magnitude.minor ∧
    waveMagnitude (1 / 10) = Magnitude.significant :=
  magnitude_is_highest_strictly_exceeded_tier ⟨none, 0⟩ (6 / 100) 1
    ⟨some WaveType.impulse, 1⟩ _ (by
      rw [scanStep_emit_impulse ⟨none, 0⟩ (6 / 100) 1
        (by rw [abs_of_nonneg (by norm_num : (0 : ℚ) ≤ 6 / 100)]; norm_num [thMinor])
        (by norm_num)]
      simp only [waveMagnitude]
      rw [abs_of_nonneg (by norm_num : (0 : ℚ) ≤ 6 / 100)]
      norm_num [thSignificant, thMajor, impulseLabel]
      rfl)

/-- C2: the interpretation engine's trend is bullish if and only if the
impulse sub-list of the produced wave set is non-empty, i.e. bearish
exactly when zero impulse waves were detected. -/
theorem trend_bullish_iff_impulse_nonempty (series : List ℚ) :
    (price_trend (identify_wave_pattern series) = Trend.bullish ↔
      (identify_wave_pattern series).impulse_waves ≠ []) ∧
    (price_trend (identify_wave_pattern series) = Trend.bearish ↔
      (identify_wave_pattern series).impulse_waves = []) := by
  constructor
  · exact price_trend_eq_bullish_iff series
  · constructor
    · intro hb
      by_contra hne
      have := (price_trend_eq_bullish_iff series).mpr hne
      rw [hb] at this
      exact Trend.noConfusion this
    · intro hnil
      rcases htr : price_trend (identify_wave_pattern series) with _ | _
      · exact absurd ((price_trend_eq_bullish_iff series).mp htr) (by simp [hnil])
      · rfl

/-- C3: the recommendation is the first-match-wins table over
(impulse count, corrective count, trend), and depends on the wave lists
only through their lengths. -/
theorem recommendation_table (iw cw : List WaveSegment) (t : Trend) :
    (iw.length > cw.length ∧ t = Trend.bullish →
        get_investment_recommendation iw cw t = Recommendation.strongBuy) ∧
    (iw.length > cw.length ∧ t ≠ Trend.bullish →
        get_investment_recommendation iw cw t = Recommendation.moderateBuy) ∧
    (cw.length > iw.length →
        get_investment_recommendation iw cw t = Recommendation.holdCaution) ∧
    (iw.length = cw.length →
        get_investment_recommendation iw cw t = Recommendation.neutral) ∧
    (∀ iw2 cw2 : List WaveSegment, iw2.length = iw.length → cw2.length = cw.length →
        get_investment_recommendation iw2 cw2 t =
          get_investment_recommendation iw cw t) := by
  refine ⟨?_, ?_, ?_, ?_, ?_⟩
  · rintro ⟨hgt, ht⟩
    simp [get_investment_recommendation, hgt, ht]
  · rintro ⟨hgt, ht⟩
    simp only [get_investment_recommendation]
    rw [if_neg (by tauto), if_pos hgt]
  · intro hgt
    simp only [get_investment_recommendation]
    rw [if_neg (by omega), if_neg (by omega), if_pos hgt]
  · intro heq
    simp only [get_investment_recommendation]
    rw [if_neg (by omega), if_neg (by omega), if_neg (by omega)]
  · intro iw2 cw2 h1 h2
    simp only [get_investment_recommendation, h1, h2]

/-- Closed instance of the C3 theorem: one impulse wave, no corrective
wave, bullish trend gives a strong buy. -/
theorem recommendation_table_witness :
    get_investment_recommendation
      [{ type := WaveType.impulse, magnitude := Magnitude.minor,
         start_index := 0, end_index := 1, percentage_change := 3,
         label := "Impulse 1" }] [] Trend.bullish = Recommendation.strongBuy :=
  (recommendation_table _ [] Trend.bullish).1 ⟨by decide, rfl⟩

/-- Helper: a block of below-threshold changes is scanned through
without touching the state. -/
lemma scanFrom_skips : ∀ (skips : List ℚ) (st : ScanState) (i : Nat) (cs : List ℚ),
    (∀ x ∈ skips, |x| ≤ thMinor) →
    scanFrom st i (skips ++ cs) = scanFrom st (i + skips.length) cs := by
  intro skips
  induction skips with
  | nil =>
      intro st i cs h
      simp
  | cons a as ih =>
      intro st i cs h
      have ha : |a| ≤ thMinor := h a (List.mem_cons_self a as)
      rw [List.cons_append, scanFrom, scanStep_skip st a i (not_lt.mpr ha)]
      show scanFrom st (i + 1) (as ++ cs) = scanFrom st (i + (a :: as).length) cs
      rw [ih st (i + 1) cs (fun x hx => h x (List.mem_cons_of_mem a hx))]
      simp only [List.length_cons]
      congr 1
      omega

/-- C5: a scanned change with absolute value at most 0.02 emits no
segment and leaves the scan state unchanged; the scan on a series
starting with such a change continues on the rest with the same state,
and the state persists across any number of consecutive skipped points,
so a same-type run continues its counter across skips. -/
theorem skip_preserves_state (st : ScanState) (c : ℚ) (i : Nat)
    (h : |c| ≤ thMinor) :
    scanStep st c i = (st, none) ∧
    (∀ cs : List ℚ, scanFrom st i (c :: cs) = scanFrom st (i + 1) cs) ∧
    (∀ (skips cs : List ℚ), (∀ x ∈ skips, |x| ≤ thMinor) →
        scanFrom st i (skips ++ cs) = scanFrom st (i + skips.length) cs) := by
  have hm : ¬ thMinor < |c| := not_lt.mpr h
  refine ⟨scanStep_skip st c i hm, ?_, ?_⟩
  · intro cs
    rw [scanFrom, scanStep_skip st c i hm]
  · intro skips cs hs
    exact scanFrom_skips skips st i cs hs

/-- Closed instance of the C5 theorem at the change 0.01. -/
theorem skip_preserves_state_witness :
    scanStep ⟨some WaveType.impulse, 2⟩ (1 / 100) 4 = (⟨some WaveType.impulse, 2⟩, none) ∧
    scanFrom ⟨some WaveType.impulse, 2⟩ 4 [1 / 100] =
      scanFrom ⟨some WaveType.impulse, 2⟩ 5 [] :=
  ⟨(skip_preserves_state ⟨some WaveType.impulse, 2⟩ (1 / 100) 4
      (by rw [abs_of_nonneg (by norm_num : (0 : ℚ) ≤ 1 / 100)]; norm_num [thMinor])).1,
   (skip_preserves_state ⟨some WaveType.impulse, 2⟩ (1 / 100) 4
      (by rw [abs_of_nonneg (by norm_num : (0 : ℚ) ≤ 1 / 100)]; norm_num [thMinor])).2.1 []⟩

/-- C4: a segment whose type differs from the carried wave type resets
the run counter to 1 and restarts the label sequence at the first label
of its type; a segment of the carried type increments the counter; the
impulse labels are "Impulse 1".."Impulse 5" and then freeze at
"Impulse Ext", the corrective labels advance through the letters A, B,
C and then freeze at "Correction Ext". -/
theorem type_switch_resets_run_and_labels
    (st : ScanState) (c : ℚ) (i : Nat) (st2 : ScanState) (seg : WaveSegment)
    (h : scanStep st c i = (st2, some seg)) :
    (st.current_wave_type ≠ some seg.type →
        st2.wave_count = 1 ∧
        (seg.type = WaveType.impulse → seg.label = "Impulse 1") ∧
        (seg.type = WaveType.corrective → seg.label = "Correction A")) ∧
    (st.current_wave_type = some seg.type → st2.wave_count = st.wave_count + 1) ∧
    st2.current_wave_type = some seg.type ∧
    (seg.type = WaveType.impulse →
        seg.label = if st2.wave_count ≤ 5 then "Impulse " ++ toString st2.wave_count
          else "Impulse Ext") ∧
    (seg.type = WaveType.corrective →
        seg.label = if st2.wave_count ≤ 3 then
            "Correction " ++ (Char.ofNat (64 + st2.wave_count)).toString
          else "Correction Ext") := by
  by_cases hm : thMinor < |c|
  · by_cases hp : 0 < c
    · have h2 := (scanStep_emit_impulse st c i hm hp).symm.trans h
      simp only [Prod.mk.injEq, Option.some.injEq] at h2
      obtain ⟨hst, hseg⟩ := h2
      subst hst
      subst hseg
      by_cases hcur : st.current_wave_type = some WaveType.impulse
      · simp [hcur, impulseLabel]
      · simp [hcur, impulseLabel]
        rfl
    · have h2 := (scanStep_emit_corrective st c i hm hp).symm.trans h
      simp only [Prod.mk.injEq, Option.some.injEq] at h2
      obtain ⟨hst, hseg⟩ := h2
      subst hst
      subst hseg
      by_cases hcur : st.current_wave_type = some WaveType.corrective
      · simp [hcur, correctiveLabel]
      · simp [hcur, correctiveLabel]
        rfl
  · rw [scanStep_skip st c i hm] at h
    simp at h

/-- Closed instance of the C4 theorem: a corrective-to-impulse switch
resets the counter to 1 and labels the wave "Impulse 1". -/
theorem type_switch_resets_run_and_labels_witness :
    (⟨some WaveType.impulse, 1⟩ : ScanState).wave_count = 1 ∧
    (({ type := WaveType.impulse, magnitude := waveMagnitude (3 / 100),
        start_index := 4, end_index := 5, percentage_change := 3 / 100 * 100,
        label := impulseLabel 1 } : WaveSegment).type = WaveType.impulse →
      ({ type := WaveType.impulse, magnitude := waveMagnitude (3 / 100),
         start_index := 4, end_index := 5, percentage_change := 3 / 100 * 100,
         label := impulseLabel 1 } : WaveSegment).label = "Impulse 1") ∧
    (({ type := WaveType.impulse, magnitude := waveMagnitude (3 / 100),
        start_index := 4, end_index := 5, percentage_change := 3 / 100 * 100,
        label := impulseLabel 1 } : WaveSegment).type = WaveType.corrective →
      ({ type := WaveType.impulse, magnitude := waveMagnitude (3 / 100),
         start_index := 4, end_index := 5, percentage_change := 3 / 100 * 100,
         label := impulseLabel 1 } : WaveSegment).label = "Correction A") :=
  (type_switch_resets_run_and_labels ⟨some WaveType.corrective, 2⟩ (3 / 100) 5
      ⟨some WaveType.impulse, 1⟩ _
      (by
        rw [scanStep_emit_impulse ⟨some WaveType.corrective, 2⟩ (3 / 100) 5
          (by rw [abs_of_nonneg (by norm_num : (0 : ℚ) ≤ 3 / 100)]; norm_num [thMinor])
          (by norm_num)]
        simp)).1
    (by simp)

/-- C9 counterexample: on the change series `[NaN, -0.03]` the single
emitted corrective wave (run counter 1) carries the label
"Correction A", which is not the bare single letter "A". -/
theorem corrective_label_counterexample :
    (identify_wave_pattern [0, -3 / 100]).wave_details =
      [{ type := WaveType.corrective, magnitude := Magnitude.minor,
         start_index := 0, end_index := 1, percentage_change := -3,
         label := "Correction A" }] ∧
    ("Correction A" : String) ≠ "A" := by
  have habs : |(-3 : ℚ) / 100| = 3 / 100 := by
    rw [abs_of_nonpos (by norm_num : (-3 : ℚ) / 100 ≤ 0)]
    norm_num
  constructor
  · have hstep := scanStep_emit_corrective ⟨none, 0⟩ (-3 / 100) 1
      (by rw [habs]; norm_num [thMinor]) (by norm_num)
    show (scanFrom ⟨none, 0⟩ 1 [-3 / 100]).wave_details = _
    rw [scanFrom, hstep]
    simp only [scanFrom, emptyWaves, List.cons.injEq, and_true, WaveSegment.mk.injEq]
    refine ⟨trivial, ?_, trivial, trivial, by norm_num, ?_⟩
    · simp only [waveMagnitude]
      rw [habs]
      norm_num [thSignificant, thMajor]
    · have hone : (if (none : Option WaveType) = some WaveType.corrective
          then 0 + 1 else 1) = 1 := by simp
      rw [hone]
      rfl
  · decide

/-- C9 amended: for every emitted corrective wave with run counter at
most 3, the segment's label is the string "Correction " followed by the
single letter `chr(64 + runCounter)` (1 → A, 2 → B, 3 → C), not the
bare letter alone. -/
theorem corrective_label_prefixed_letter
    (st : ScanState) (c : ℚ) (i : Nat) (st2 : ScanState) (seg : WaveSegment)
    (h : scanStep st c i = (st2, some seg))
    (ht : seg.type = WaveType.corrective) (hc : st2.wave_count ≤ 3) :
    seg.label = "Correction " ++ (Char.ofNat (64 + st2.wave_count)).toString := by
  by_cases hm : thMinor < |c|
  · by_cases hp : 0 < c
    · have h2 := (scanStep_emit_impulse st c i hm hp).symm.trans h
      simp only [Prod.mk.injEq, Option.some.injEq] at h2
      obtain ⟨hst, hseg⟩ := h2
      rw [← hseg] at ht
      exact absurd ht (by simp)
    · have h2 := (scanStep_emit_corrective st c i hm hp).symm.trans h
      simp only [Prod.mk.injEq, Option.some.injEq] at h2
      obtain ⟨hst, hseg⟩ := h2
      subst hst
      subst hseg
      simp only [correctiveLabel, if_pos hc]
  · rw [scanStep_skip st c i hm] at h
    simp at h

/-- Closed instance of the C9 amended theorem at the change -0.03. -/
theorem corrective_label_prefixed_letter_witness :
    ({ type := WaveType.corrective, magnitude := waveMagnitude (-3 / 100),
       start_index := 0, end_index := 1, percentage_change := -3 / 100 * 100,
       label := correctiveLabel 1 } : WaveSegment).label =
      "Correction " ++ (Char.ofNat (64 + 1)).toString :=
  corrective_label_prefixed_letter ⟨none, 0⟩ (-3 / 100) 1 ⟨some WaveType.corrective, 1⟩ _
    (by
      rw [scanStep_emit_corrective ⟨none, 0⟩ (-3 / 100) 1
        (by rw [abs_of_nonpos (by norm_num : (-3 : ℚ) / 100 ≤ 0)]; norm_num [thMinor])
        (by norm_num)]
      simp)
    rfl (by norm_num)

/-- C10: on every wave set actually produced by the classification
engine, the moderate-buy recommendation is unreachable — whenever the
impulse count exceeds the corrective count the impulse list is
non-empty, so the trend is bullish and the strong-buy branch fires
first; the recommendation is always strong buy, hold/caution, or
neutral. -/
theorem moderate_buy_unreachable (series : List ℚ) :
    get_investment_recommendation (identify_wave_pattern series).impulse_waves
        (identify_wave_pattern series).corrective_waves
        (price_trend (identify_wave_pattern series)) ≠ Recommendation.moderateBuy ∧
    (get_investment_recommendation (identify_wave_pattern series).impulse_waves
        (identify_wave_pattern series).corrective_waves
        (price_trend (identify_wave_pattern series)) = Recommendation.strongBuy ∨
     get_investment_recommendation (identify_wave_pattern series).impulse_waves
        (identify_wave_pattern series).corrective_waves
        (price_trend (identify_wave_pattern series)) = Recommendation.holdCaution ∨
     get_investment_recommendation (identify_wave_pattern series).impulse_waves
        (identify_wave_pattern series).corrective_waves
        (price_trend (identify_wave_pattern series)) = Recommendation.neutral) := by
  have key : (identify_wave_pattern series).impulse_waves.length >
      (identify_wave_pattern series).corrective_waves.length →
      price_trend (identify_wave_pattern series) = Trend.bullish := by
    intro hgt
    apply (price_trend_eq_bullish_iff series).mpr
    intro hnil
    rw [hnil] at hgt
    simp at hgt
  unfold get_investment_recommendation
  split_ifs with h1 h2 h3
  · exact ⟨by simp, Or.inl rfl⟩
  · exact absurd ⟨h2, key h2⟩ h1
  · exact ⟨by simp, Or.inr (Or.inl rfl)⟩
  · exact ⟨by simp, Or.inr (Or.inr rfl)⟩

/-- C6 counterexample: on a series of exactly 2 price points the
candle stage raises the insufficient-data error (line 89-90) instead of
succeeding. -/
theorem two_point_series_candles_error :
    get_crypto_candles [50, 101 / 2] = Except.error CryptoError.insufficientData := by
  simp [get_crypto_candles]

/-- C6 amended: a series of exactly 2 price points makes the candle
stage fail with the insufficient-data error (only 1 candle remains
after the first point is dropped, and fewer than 2 rows are rejected);
the classification stage on an empty change sequence does return an
empty wave set, with zero impulse and corrective counts, bearish trend
and a neutral recommendation. -/
theorem two_point_fails_and_empty_scan_neutral :
    (∀ closes : List ℚ, closes.length = 2 →
        get_crypto_candles closes = Except.error CryptoError.insufficientData) ∧
    identify_wave_pattern [] = emptyWaves ∧
    (identify_wave_pattern []).impulse_waves.length = 0 ∧
    (identify_wave_pattern []).corrective_waves.length = 0 ∧
    price_trend (identify_wave_pattern []) = Trend.bearish ∧
    get_investment_recommendation (identify_wave_pattern []).impulse_waves
      (identify_wave_pattern []).corrective_waves
      (price_trend (identify_wave_pattern [])) = Recommendation.neutral := by
  refine ⟨?_, rfl, rfl, rfl, rfl, rfl⟩
  intro closes h
  simp [get_crypto_candles, h]

/-- Closed instance of the C6 amended theorem at the series [1, 2]. -/
theorem two_point_fails_and_empty_scan_neutral_witness :
    get_crypto_candles [1, 2] = Except.error CryptoError.insufficientData :=
  two_point_fails_and_empty_scan_neutral.1 [1, 2] rfl

/-- C7: the candle stage fails with the insufficient-data error exactly
when fewer than 2 candles remain after dropping the first input point,
and otherwise returns a candle list of length n-1 whose k-th row closes
at input point k+1 and opens at input point k. -/
theorem candle_stage_failure_and_length (closes : List ℚ) :
    (get_crypto_candles closes = Except.error CryptoError.insufficientData ↔
        closes.length - 1 < 2) ∧
    (∀ cs : List Candle, get_crypto_candles closes = Except.ok cs →
        cs.length = closes.length - 1 ∧
        ∀ k (hk : k < cs.length),
          (cs.get ⟨k, hk⟩).open_ = closes.getD k 0 ∧
          (cs.get ⟨k, hk⟩).close = closes.getD (k + 1) 0) := by
  by_cases h1 : closes.length < 2
  · constructor
    · simp only [get_crypto_candles, if_pos h1]
      constructor
      · intro
        omega
      · intro
        trivial
    · intro cs hcs
      simp only [get_crypto_candles, if_pos h1] at hcs
      exact absurd hcs (by simp)
  · by_cases h2 : closes.length - 1 < 2
    · constructor
      · simp only [get_crypto_candles, if_neg h1, List.length_map, List.length_range,
          if_pos h2]
        constructor
        · intro
          exact h2
        · intro
          trivial
      · intro cs hcs
        simp only [get_crypto_candles, if_neg h1, List.length_map, List.length_range,
          if_pos h2] at hcs
        exact absurd hcs (by simp)
    · constructor
      · simp only [get_crypto_candles, if_neg h1, List.length_map, List.length_range,
          if_neg h2]
        constructor
        · intro hcontra
          exact absurd hcontra (by simp)
        · intro hcontra
          exact absurd hcontra h2
      · intro cs hcs
        simp only [get_crypto_candles, if_neg h1, List.length_map, List.length_range,
          if_neg h2, Except.ok.injEq] at hcs
        subst hcs
        refine ⟨by simp, ?_⟩
        intro k hk
        have hk2 : k < closes.length - 1 := by
          simpa using hk
        constructor
        · simp [List.get_eq_getElem, candleAt]
        · simp [List.get_eq_getElem, candleAt]

/-- Closed instance of the C7 theorem: a 1-point series fails, and a
3-point series yields 2 candles. -/
theorem candle_stage_failure_and_length_witness :
    get_crypto_candles [(7 : ℚ)] = Except.error CryptoError.insufficientData ∧
    ([⟨1, 2, 1, 2⟩, ⟨2, 3, 1, 3⟩] : List Candle).length = [(1 : ℚ), 2, 3].length - 1 :=
  ⟨(candle_stage_failure_and_length [(7 : ℚ)]).1.mpr (by norm_num),
   ((candle_stage_failure_and_length [(1 : ℚ), 2, 3]).2 [⟨1, 2, 1, 2⟩, ⟨2, 3, 1, 3⟩]
      (by norm_num [get_crypto_candles, candleAt, rollingMax, rollingMin, rollingWindow,
        List.range_succ, max_def, min_def])).1⟩

/-- Helper: each per-row gain is nonnegative. -/
lemma gainAt_nonneg (closes : List ℚ) (i : Nat) : 0 ≤ gainAt closes i := by
  unfold gainAt
  split
  · exact le_refl 0
  · exact le_max_right _ _

/-- Helper: each per-row loss is nonnegative. -/
lemma lossAt_nonneg (closes : List ℚ) (i : Nat) : 0 ≤ lossAt closes i := by
  unfold lossAt
  split
  · exact le_refl 0
  · exact le_max_right _ _

/-- Helper: the rolling average gain is nonnegative. -/
lemma avgGain_nonneg (closes : List ℚ) (i : Nat) : 0 ≤ avgGain closes i := by
  unfold avgGain
  refine div_nonneg ?_ (by norm_num)
  refine List.sum_nonneg ?_
  intro x hx
  simp only [List.mem_map] at hx
  obtain ⟨k, hk, rfl⟩ := hx
  exact gainAt_nonneg closes (i - k)

/-- Helper: the rolling average loss is nonnegative. -/
lemma avgLoss_nonneg (closes : List ℚ) (i : Nat) : 0 ≤ avgLoss closes i := by
  unfold avgLoss
  refine div_nonneg ?_ (by norm_num)
  refine List.sum_nonneg ?_
  intro x hx
  simp only [List.mem_map] at hx
  obtain ⟨k, hk, rfl⟩ := hx
  exact lossAt_nonneg closes (i - k)

/-- Helper: on the strictly ascending demo series every loss is 0, so
the rolling average loss at row 13 is 0. -/
lemma avgLoss_demo13 : avgLoss demoAscending 13 = 0 := by
  norm_num [avgLoss, lossAt, demoAscending, List.range_succ, max_def]

/-- Helper: on the strictly ascending demo series the rolling average
gain at row 13 is positive (13 unit gains in the window of 14). -/
lemma avgGain_demo13 : avgGain demoAscending 13 > 0 := by
  norm_num [avgGain, gainAt, demoAscending, List.range_succ, max_def]

/-- C8 counterexample: on the 15-point ascending demo series the RSI is
already defined at row index 13 — within the first 14 indicator rows —
with value 100, refuting that RSI is undefined for the first 14 rows. -/
theorem rsi_defined_at_14th_row :
    13 < 14 ∧ rsiAt demoAscending 13 = some 100 := by
  refine ⟨by norm_num, ?_⟩
  simp only [rsiAt]
  rw [if_neg (by norm_num), if_pos avgLoss_demo13, if_pos avgGain_demo13]

/-- C8 amended: every defined RSI value lies in [0, 100]; RSI is
undefined (no value) for the first 13 indicator rows (the initial NaN
delta is coerced to a zero gain and loss, so the 14-row window fills at
row index 13, not 14); and when the rolling average loss is zero with a
positive average gain, RSI is defined as 100 rather than raising. -/
theorem rsi_range_and_definedness :
    (∀ (closes : List ℚ) (i : Nat) (x : ℚ), rsiAt closes i = some x →
        0 ≤ x ∧ x ≤ 100) ∧
    (∀ (closes : List ℚ) (i : Nat), i < 13 → rsiAt closes i = none) ∧
    (∀ (closes : List ℚ) (i : Nat), 13 ≤ i → avgLoss closes i = 0 →
        avgGain closes i > 0 → rsiAt closes i = some 100) := by
  refine ⟨?_, ?_, ?_⟩
  · intro closes i x hx
    simp only [rsiAt] at hx
    by_cases h13 : i < 13
    · rw [if_pos h13] at hx
      exact absurd hx (by simp)
    · rw [if_neg h13] at hx
      by_cases hl : avgLoss closes i = 0
      · rw [if_pos hl] at hx
        by_cases hg : avgGain closes i > 0
        · rw [if_pos hg] at hx
          have hx2 := Option.some.inj hx
          rw [← hx2]
          norm_num
        · rw [if_neg hg] at hx
          exact absurd hx (by simp)
      · rw [if_neg hl] at hx
        have hx2 := Option.some.inj hx
        have hg0 := avgGain_nonneg closes i
        have hl0 := avgLoss_nonneg closes i
        have hrs : 0 ≤ avgGain closes i / avgLoss closes i := div_nonneg hg0 hl0
        have h1 : (1 : ℚ) ≤ 1 + avgGain closes i / avgLoss closes i := by linarith
        have hdpos : 0 < 100 / (1 + avgGain closes i / avgLoss closes i) :=
          div_pos (by norm_num) (by linarith)
        have hdle : 100 / (1 + avgGain closes i / avgLoss closes i) ≤ 100 :=
          div_le_self (by norm_num) h1
        rw [← hx2]
        constructor
        · linarith
        · linarith
  · intro closes i h
    simp [rsiAt, h]
  · intro closes i h13 hl hg
    simp only [rsiAt]
    rw [if_neg (Nat.not_lt.mpr h13), if_pos hl, if_pos hg]

/-- Closed instance of the C8 amended theorem on the demo series: RSI
is undefined at row 12 and defined as 100 at row 13. -/
theorem rsi_range_and_definedness_witness :
    rsiAt demoAscending 12 = none ∧ rsiAt demoAscending 13 = some 100 :=
  ⟨rsi_range_and_definedness.2.1 demoAscending 12 (by norm_num),
   rsi_range_and_definedness.2.2 demoAscending 13 (by norm_num)
     avgLoss_demo13 avgGain_demo13⟩

end CryptoApp
